import Mathlib

/-!
Shallow embedding of `feudal_networks/algos/feudal_policy_optimizer.py`.

Scalar rewards, value estimates and bootstrap values are modelled as exact
rationals (`ℚ`); observations, actions, goals, embeddings, per-step value
records and recurrent-feature snapshots are opaque type parameters, since
the code only stores and concatenates them.
-/

namespace FeudalOpt

/-- Embedding of `PartialRollout` (`feudal_policy_optimizer.py`, lines 40-55).
Type parameters: `S` observations, `A` actions, `V` per-step value records,
`G` goals, `E` embeddings (`ss`), `F` recurrent-feature snapshots. -/
structure PartialRollout (S A V G E F : Type) where
  states : List S
  actions : List A
  rewards : List ℚ
  values : List V
  ss : List E
  gs : List G
  features : List F
  manager_r : ℚ
  worker_r : ℚ
  terminal : Bool
deriving Repr, DecidableEq

/-- Embedding of `PartialRollout.__init__`: all sequences empty, bootstraps `0.0`,
`terminal = False`. -/
def PartialRollout.init {S A V G E F : Type} : PartialRollout S A V G E F :=
  { states := [], actions := [], rewards := [], values := [], ss := [],
    gs := [], features := [], manager_r := 0, worker_r := 0, terminal := false }

/-- Embedding of `PartialRollout.add` (lines 57-65): append one transition to every
per-step sequence and overwrite the `terminal` flag with the transition's. -/
def PartialRollout.add {S A V G E F : Type} (r : PartialRollout S A V G E F)
    (state : S) (action : A) (reward : ℚ) (value : V) (g : G) (s : E)
    (terminal : Bool) (features : F) : PartialRollout S A V G E F :=
  { r with
    states := r.states ++ [state]
    actions := r.actions ++ [action]
    rewards := r.rewards ++ [reward]
    values := r.values ++ [value]
    terminal := terminal
    features := r.features ++ [features]
    gs := r.gs ++ [g]
    ss := r.ss ++ [s] }

/-- The body of `PartialRollout.extend` after its assertion (lines 69-78):
concatenate every per-step sequence and take the other fragment's bootstrap
values and terminal flag. -/
def PartialRollout.extendP {S A V G E F : Type} (r o : PartialRollout S A V G E F) :
    PartialRollout S A V G E F :=
  { states := r.states ++ o.states
    actions := r.actions ++ o.actions
    rewards := r.rewards ++ o.rewards
    values := r.values ++ o.values
    gs := r.gs ++ o.gs
    ss := r.ss ++ o.ss
    manager_r := o.manager_r
    worker_r := o.worker_r
    terminal := o.terminal
    features := r.features ++ o.features }

/-- Embedding of `PartialRollout.extend` (lines 67-78): `assert not self.terminal` then
concatenate; `none` models the `AssertionError` raised on a terminal
receiver. -/
def PartialRollout.extend {S A V G E F : Type} (r o : PartialRollout S A V G E F) :
    Option (PartialRollout S A V G E F) :=
  if r.terminal then none else some (r.extendP o)

/-- Embedding of the `Batch` namedtuple (lines 37-38). -/
structure Batch (S A V G E F : Type) where
  obs : List S
  a : List A
  manager_returns : List ℚ
  worker_returns : List ℚ
  terminal : Bool
  s : List E
  g : List G
  features : List F
deriving Repr, DecidableEq

/-- Embedding of `discount(x, gamma)` (lines 15-16):
`scipy.signal.lfilter([1], [1, -gamma], x[::-1], axis=0)[::-1]` runs the
AR(1) recurrence `y[k] = x[k] + gamma * y[k-1]` (zero initial state) over the
reversed sequence and reverses back, i.e. the backward pass
`out[i] = x[i] + gamma * out[i+1]` with `out` past the end treated as `0`. -/
def discount (gamma : ℚ) : List ℚ → List ℚ
  | [] => []
  | a :: rest => (a + gamma * (discount gamma rest).headD 0) :: discount gamma rest

/-- Embedding of `process_rollout` (lines 18-35).  `lambda_` is a parameter of the Python
function (default `1.0`) that its body never reads.  The bootstrap value of
each stream is appended as a virtual final reward, one discounted cumulative
sum is run per stream, and the virtual element is dropped (`[:-1]`).  No
operation in the body can raise, on the empty rollout included
(`np.asarray([])` and single-element `lfilter` are total), so the embedding
is a total function. -/
def process_rollout {S A V G E F : Type} (rollout : PartialRollout S A V G E F)
    (manager_gamma worker_gamma lambda_ : ℚ) : Batch S A V G E F :=
  let batch_si := rollout.states
  let batch_a := rollout.actions
  let manager_rewards_plus_v := rollout.rewards ++ [rollout.manager_r]
  let worker_rewards_plus_v := rollout.rewards ++ [rollout.worker_r]
  let batch_manager_r := (discount manager_gamma manager_rewards_plus_v).dropLast
  let batch_worker_r := (discount worker_gamma worker_rewards_plus_v).dropLast
  let batch_s := rollout.ss
  let batch_g := rollout.gs
  { obs := batch_si, a := batch_a, manager_returns := batch_manager_r,
    worker_returns := batch_worker_r, terminal := rollout.terminal,
    s := batch_s, g := batch_g, features := rollout.features }

/-- One transition of the `env_runner` loop (lines 133-149): what `policy.act`
and `env.step` supply for one iteration, as appended by `rollout.add`. -/
structure Step (S A V G E F : Type) where
  state : S
  action : A
  reward : ℚ
  value : V
  g : G
  s : E
  terminal : Bool
  features : F
deriving Repr, DecidableEq

/-- Application of `rollout.add(last_state, action, reward, value_, g, s, terminal,
last_features)` (line 144) applied to one packaged transition. -/
def addStep {S A V G E F : Type} (r : PartialRollout S A V G E F)
    (t : Step S A V G E F) : PartialRollout S A V G E F :=
  r.add t.state t.action t.reward t.value t.g t.s t.terminal t.features

/-- The `for local_step_iter in range(num_local_steps)` loop of `env_runner`
(lines 133-169).  `steps i` packages what `policy.act`/`env.step` return at
global step `i`; `limit` is `env.spec.tags['wrapper_config.TimeLimit.max_episode_steps']`;
the loop appends each transition, increments `length`, and breaks with
`terminal_end = True` as soon as `terminal or length >= timestep_limit`.
Returns (rollout, length, terminal_end). -/
def collectLoop {S A V G E F : Type} (steps : ℕ → Step S A V G E F) (limit : ℕ) :
    ℕ → ℕ → PartialRollout S A V G E F → ℕ →
      PartialRollout S A V G E F × ℕ × Bool
  | 0, _, r, len => (r, len, false)
  | m + 1, i, r, len =>
    let t := steps i
    let r2 := addStep r t
    let len2 := len + 1
    if t.terminal = true ∨ limit ≤ len2 then (r2, len2, true)
    else collectLoop steps limit m (i + 1) r2 len2

/-- One iteration of the outer `while True` of `env_runner` (lines 129-176):
start from a fresh `PartialRollout()`, run the collection loop, and only when
the loop did NOT end an episode (`if not terminal_end`, lines 171-173) store
the policy's two bootstrap values `(vm, vw)` into the fragment; then yield it. -/
def env_runner_window {S A V G E F : Type} (steps : ℕ → Step S A V G E F)
    (limit : ℕ) (vm vw : ℚ) (num_local_steps len0 : ℕ) :
    PartialRollout S A V G E F :=
  let out := collectLoop steps limit num_local_steps 0 PartialRollout.init len0
  if out.2.2 then out.1 else { out.1 with manager_r := vm, worker_r := vw }

/-- The `while not rollout.terminal` drain loop of `pull_batch_from_queue`
(lines 263-267): while the accumulated rollout is non-terminal, receive the
next immediately-available fragment (`get_nowait`) and merge it; a momentarily
empty queue (`queue.Empty`) breaks the loop.  The `extend` assertion cannot
fire because the loop guard just checked `not rollout.terminal`, so the merge
is `extendP`.  Returns the accumulated rollout and the remaining queue. -/
def drainLoop {S A V G E F : Type} :
    List (PartialRollout S A V G E F) → PartialRollout S A V G E F →
      PartialRollout S A V G E F × List (PartialRollout S A V G E F)
  | [], r => (r, [])
  | f :: rest, r =>
    if r.terminal then (r, f :: rest) else drainLoop rest (r.extendP f)

/-- Embedding of `FeudalPolicyOptimizer.pull_batch_from_queue` (lines 258-268) against a
snapshot of the queue's contents: `queue.get(timeout=600.0)` on an empty queue
raises `queue.Empty` after the timeout, which propagates (fatal, no retry);
otherwise one fragment is removed and the non-blocking drain loop runs. -/
def pull_batch_from_queue {S A V G E F : Type}
    (q : List (PartialRollout S A V G E F)) :
    Except String (PartialRollout S A V G E F × List (PartialRollout S A V G E F)) :=
  match q with
  | [] => Except.error "queue.get timed out"
  | f :: rest => Except.ok (drainLoop rest f)

/-- A bounded FIFO queue, the model of `six.moves.queue.Queue(maxsize)`.
`items` is ordered front (next to get) first. -/
structure BoundedQueue (α : Type) where
  capacity : ℕ
  items : List α
deriving Repr, DecidableEq

/-- Model of `Queue.put(item, timeout=600.0)`: succeeds immediately while the queue is
below capacity; on a full queue the producer blocks (suspends, up to the
timeout) until a consumer `get` makes room — the blocked outcome is `none`. -/
def BoundedQueue.put {α : Type} (q : BoundedQueue α) (x : α) :
    Option (BoundedQueue α) :=
  if q.items.length < q.capacity then some { q with items := q.items ++ [x] }
  else none

/-- Model of `Queue.get`: remove the front item; empty queue yields `none` (blocked). -/
def BoundedQueue.get {α : Type} (q : BoundedQueue α) :
    Option (α × BoundedQueue α) :=
  match q.items with
  | [] => none
  | x :: rest => some (x, { q with items := rest })

/-- Embedding of `RunnerThread.__init__` (line 88): `self.queue = queue.Queue(5)`. -/
def runnerQueue (α : Type) : BoundedQueue α := { capacity := 5, items := [] }

/-- The timeout `RunnerThread._run` passes to `self.queue.put` (line 114). -/
def runnerPutTimeout : ℚ := 600

/-- The timeout `pull_batch_from_queue` passes to `queue.get` (line 262). -/
def pullGetTimeout : ℚ := 600

/-! ### Concrete sample values used by the witness theorems -/

/-- A concrete two-step non-terminal rollout. -/
def sampleRollout : PartialRollout ℕ ℕ ℕ ℕ ℕ ℕ :=
  { states := [10, 11], actions := [0, 1], rewards := [1, 2], values := [7, 8],
    ss := [20, 21], gs := [30, 31], features := [40, 41],
    manager_r := 3, worker_r := 4, terminal := false }

/-- A second concrete non-terminal rollout. -/
def sampleRollout2 : PartialRollout ℕ ℕ ℕ ℕ ℕ ℕ :=
  { states := [12], actions := [2], rewards := [5], values := [9],
    ss := [22], gs := [32], features := [42],
    manager_r := 6, worker_r := 7, terminal := false }

/-- A concrete terminal rollout. -/
def terminalRollout : PartialRollout ℕ ℕ ℕ ℕ ℕ ℕ :=
  { states := [99], actions := [3], rewards := [8], values := [13],
    ss := [23], gs := [33], features := [43],
    manager_r := 0, worker_r := 0, terminal := true }

/-- A concrete transition stream whose first transition is terminal. -/
def sampleSteps : ℕ → Step ℕ ℕ ℕ ℕ ℕ ℕ := fun i =>
  { state := i, action := 0, reward := 1, value := 0, g := 0, s := 0,
    terminal := true, features := 0 }

/-! ### Basic lemmas about `discount` -/

theorem discount_length (gamma : ℚ) (x : List ℚ) :
    (discount gamma x).length = x.length := by
  induction x with
  | nil => rfl
  | cons a rest ih => simp [discount, ih]

theorem discount_getD_rec (gamma : ℚ) (x : List ℚ) (i : Nat)
    (h : i + 1 < x.length) :
    (discount gamma x).getD i 0 = x.getD i 0 + gamma * (discount gamma x).getD (i + 1) 0 := by
  induction x generalizing i with
  | nil => simp at h
  | cons a rest ih =>
    cases i with
    | zero =>
      simp only [discount, List.getD]
      cases hrest : discount gamma rest <;> simp [hrest]
    | succ j =>
      simp only [discount, List.getD_cons_succ]
      exact ih j (by simpa using h)

theorem discount_getD_last (gamma : ℚ) (x : List ℚ) (hx : x ≠ []) :
    (discount gamma x).getD (x.length - 1) 0 = x.getD (x.length - 1) 0 := by
  induction x with
  | nil => exact absurd rfl hx
  | cons a rest ih =>
    cases rest with
    | nil => simp [discount]
    | cons b t =>
      have hr : (b :: t : List ℚ) ≠ [] := by simp
      simp only [discount, List.length_cons, Nat.add_sub_cancel]
      have hlen : (b :: t).length - 1 + 1 = (b :: t).length := by simp
      calc ((b + gamma * (discount gamma t).headD 0) :: discount gamma (b :: t)).getD
              ((b :: t).length) 0
          = (discount gamma (b :: t)).getD ((b :: t).length - 1) 0 := by
            simp [List.getD_cons_succ]
        _ = (b :: t).getD ((b :: t).length - 1) 0 := by
            simpa [discount] using ih hr
        _ = (a :: b :: t).getD ((b :: t).length) 0 := by
            simp [List.getD_cons_succ]

theorem getD_dropLast {α : Type} (l : List α) (i : Nat) (d : α)
    (h : i + 1 < l.length) : l.dropLast.getD i d = l.getD i d := by
  induction l generalizing i with
  | nil => simp at h
  | cons a rest ih =>
    cases rest with
    | nil => simp at h
    | cons b t =>
      cases i with
      | zero => simp [List.dropLast]
      | succ j =>
        have hj : j + 1 < (b :: t).length := by simpa using h
        simpa [List.dropLast, List.getD_cons_succ] using ih j hj

theorem getD_append_left {α : Type} (l m : List α) (i : Nat) (d : α)
    (h : i < l.length) : (l ++ m).getD i d = l.getD i d := by
  induction l generalizing i with
  | nil => simp at h
  | cons a rest ih =>
    cases i with
    | zero => simp
    | succ j => simpa [List.getD_cons_succ] using ih j (by simpa using h)

theorem getD_append_last {α : Type} (l : List α) (a d : α) :
    (l ++ [a]).getD l.length d = a := by
  induction l with
  | nil => rfl
  | cons b t ih => simpa [List.getD_cons_succ] using ih

/-- One return stream of `process_rollout`: append the bootstrap as a virtual
final reward, discount, drop the virtual element.  The result satisfies the
backward recurrence of §4.1/§8 of the spec. -/
theorem dropLast_discount_spec (gamma V : ℚ) (rw : List ℚ)
    (h : 1 ≤ rw.length) :
    ((discount gamma (rw ++ [V])).dropLast.getD (rw.length - 1) 0
        = rw.getD (rw.length - 1) 0 + gamma * V)
    ∧ ∀ i, i + 1 < rw.length →
        (discount gamma (rw ++ [V])).dropLast.getD i 0
          = rw.getD i 0 + gamma * (discount gamma (rw ++ [V])).dropLast.getD (i + 1) 0 := by
  have hxlen : (rw ++ [V]).length = rw.length + 1 := by simp
  have hdlen : (discount gamma (rw ++ [V])).length = rw.length + 1 := by
    rw [discount_length, hxlen]
  constructor
  · have h1 : (rw.length - 1) + 1 < (discount gamma (rw ++ [V])).length := by
      rw [hdlen]; omega
    have h2 : (rw.length - 1) + 1 < (rw ++ [V]).length := by rw [hxlen]; omega
    rw [getD_dropLast _ _ _ h1, discount_getD_rec gamma _ _ h2,
      getD_append_left _ _ _ _ (by omega)]
    have hlast : (rw.length - 1) + 1 = (rw ++ [V]).length - 1 := by
      rw [hxlen]; omega
    rw [hlast, discount_getD_last gamma _ (by simp)]
    have : ((rw ++ [V]).length - 1) = rw.length := by omega
    rw [this, getD_append_last]
  · intro i hi
    have h1 : i + 1 < (discount gamma (rw ++ [V])).length := by rw [hdlen]; omega
    have h2 : i + 1 < (rw ++ [V]).length := by rw [hxlen]; omega
    have h3 : (i + 1) + 1 < (discount gamma (rw ++ [V])).length := by
      rw [hdlen]; omega
    rw [getD_dropLast _ _ _ h1, discount_getD_rec gamma _ _ h2,
      getD_append_left _ _ _ _ (by omega), getD_dropLast _ _ _ h3]

/-- C1: for every rollout with at least one step, each return stream of
`process_rollout` (manager and worker independently, with its own bootstrap
and discount factor) equals the discounted cumulative sum of the rewards with
the bootstrap appended as a virtual final reward and then dropped, and
satisfies `returns[n-1] = r[n-1] + gamma*V` and
`returns[i] = r[i] + gamma*returns[i+1]` for `i < n-1`. -/
theorem process_rollout_return_recurrence {S A V G E F : Type}
    (r : PartialRollout S A V G E F) (mg wg lam : ℚ)
    (h : 1 ≤ r.rewards.length) :
    ((process_rollout r mg wg lam).manager_returns
        = (discount mg (r.rewards ++ [r.manager_r])).dropLast
      ∧ (process_rollout r mg wg lam).manager_returns.getD (r.rewards.length - 1) 0
        = r.rewards.getD (r.rewards.length - 1) 0 + mg * r.manager_r
      ∧ ∀ i, i + 1 < r.rewards.length →
          (process_rollout r mg wg lam).manager_returns.getD i 0
            = r.rewards.getD i 0
              + mg * (process_rollout r mg wg lam).manager_returns.getD (i + 1) 0)
    ∧ ((process_rollout r mg wg lam).worker_returns
        = (discount wg (r.rewards ++ [r.worker_r])).dropLast
      ∧ (process_rollout r mg wg lam).worker_returns.getD (r.rewards.length - 1) 0
        = r.rewards.getD (r.rewards.length - 1) 0 + wg * r.worker_r
      ∧ ∀ i, i + 1 < r.rewards.length →
          (process_rollout r mg wg lam).worker_returns.getD i 0
            = r.rewards.getD i 0
              + wg * (process_rollout r mg wg lam).worker_returns.getD (i + 1) 0) := by
  have hm := dropLast_discount_spec mg r.manager_r r.rewards h
  have hw := dropLast_discount_spec wg r.worker_r r.rewards h
  exact ⟨⟨rfl, hm.1, hm.2⟩, ⟨rfl, hw.1, hw.2⟩⟩

theorem process_rollout_return_recurrence_witness :
    1 ≤ sampleRollout.rewards.length
    ∧ ((process_rollout sampleRollout (1/2) (1/3) 1).manager_returns.getD
          (sampleRollout.rewards.length - 1) 0
        = sampleRollout.rewards.getD (sampleRollout.rewards.length - 1) 0
          + (1/2) * sampleRollout.manager_r) :=
  ⟨by decide,
    (process_rollout_return_recurrence sampleRollout (1/2) (1/3) 1 (by decide)).1.2.1⟩

/-- C3 counterexample: `process_rollout` on a zero-step rollout does not
raise any error — every operation in its body is total on the empty input —
and silently returns the Batch with all sequences empty. -/
theorem process_rollout_empty_counterexample :
    process_rollout (PartialRollout.init : PartialRollout ℕ ℕ ℕ ℕ ℕ ℕ)
        (1/2) (1/2) 1
      = { obs := [], a := [], manager_returns := [], worker_returns := [],
          terminal := false, s := [], g := [], features := [] } := by
  decide

/-- C3 amended: invoking `process_rollout` on an empty (zero-step) rollout is
not an error; it silently returns a `Batch` whose per-step sequences and both
return streams are all empty. -/
theorem process_rollout_empty_is_silent {S A V G E F : Type} (mg wg lam : ℚ) :
    process_rollout (PartialRollout.init : PartialRollout S A V G E F) mg wg lam
      = { obs := [], a := [], manager_returns := [], worker_returns := [],
          terminal := false, s := [], g := [], features := [] } := by
  simp [process_rollout, PartialRollout.init, discount]

/-- C4: `extend` raises its assertion (`none`) exactly when the receiver is
already terminal, and succeeds (returning the concatenation `extendP`)
exactly when the receiver is not yet terminal. -/
theorem extend_requires_nonterminal {S A V G E F : Type}
    (a b : PartialRollout S A V G E F) :
    (a.extend b = none ↔ a.terminal = true)
    ∧ (a.extend b = some (a.extendP b) ↔ a.terminal = false) := by
  cases h : a.terminal <;> simp [PartialRollout.extend, h]

theorem extend_requires_nonterminal_witness :
    terminalRollout.extend sampleRollout = none
    ∧ sampleRollout.extend terminalRollout
        = some (sampleRollout.extendP terminalRollout) :=
  ⟨(extend_requires_nonterminal terminalRollout sampleRollout).1.mpr rfl,
   (extend_requires_nonterminal sampleRollout terminalRollout).2.mpr rfl⟩

/-- The pure concatenation underlying `extend` is associative. -/
theorem extendP_assoc {S A V G E F : Type} (a b c : PartialRollout S A V G E F) :
    (a.extendP b).extendP c = a.extendP (b.extendP c) := by
  simp [PartialRollout.extendP, List.append_assoc]

/-- C5: on a non-terminal receiver, `extend` succeeds and every per-step
sequence of the result is the receiver's followed by the argument's, while
the terminal flag and both bootstrap values are taken from the argument;
consequently, when `b` is also non-terminal, merging `a` with `b` then `c`
agrees with merging `a` with (`b` merged with `c`). -/
theorem extend_concat_and_assoc {S A V G E F : Type}
    (a b c : PartialRollout S A V G E F) (ha : a.terminal = false) :
    (a.extend b = some (a.extendP b)
      ∧ (a.extendP b).states = a.states ++ b.states
      ∧ (a.extendP b).actions = a.actions ++ b.actions
      ∧ (a.extendP b).rewards = a.rewards ++ b.rewards
      ∧ (a.extendP b).values = a.values ++ b.values
      ∧ (a.extendP b).ss = a.ss ++ b.ss
      ∧ (a.extendP b).gs = a.gs ++ b.gs
      ∧ (a.extendP b).features = a.features ++ b.features
      ∧ (a.extendP b).terminal = b.terminal
      ∧ (a.extendP b).manager_r = b.manager_r
      ∧ (a.extendP b).worker_r = b.worker_r)
    ∧ (b.terminal = false →
        (a.extend b).bind (fun ab => ab.extend c)
          = (b.extend c).bind (fun bc => a.extend bc)) := by
  refine ⟨⟨?_, rfl, rfl, rfl, rfl, rfl, rfl, rfl, rfl, rfl, rfl⟩, ?_⟩
  · simp [PartialRollout.extend, ha]
  · intro hb
    have hab : (a.extendP b).terminal = false := hb
    simp [PartialRollout.extend, ha, hab, hb, extendP_assoc]

theorem extend_concat_and_assoc_witness :
    (sampleRollout.extend sampleRollout2
        = some (sampleRollout.extendP sampleRollout2)
      ∧ (sampleRollout.extendP sampleRollout2).rewards
        = sampleRollout.rewards ++ sampleRollout2.rewards)
    ∧ ((sampleRollout.extend sampleRollout2).bind
          (fun ab => ab.extend terminalRollout)
        = (sampleRollout2.extend terminalRollout).bind
          (fun bc => sampleRollout.extend bc)) :=
  ⟨⟨(extend_concat_and_assoc sampleRollout sampleRollout2 terminalRollout
      rfl).1.1,
    (extend_concat_and_assoc sampleRollout sampleRollout2 terminalRollout
      rfl).1.2.2.2.1⟩,
   (extend_concat_and_assoc sampleRollout sampleRollout2 terminalRollout
      rfl).2 rfl⟩

/-- C6: when every per-step sequence of the rollout has length `n ≥ 1`, all
per-step sequences of the produced `Batch` (`obs`, `a`, `manager_returns`,
`worker_returns`, `s`, `g`) have that same length `n`. -/
theorem process_rollout_batch_shape {S A V G E F : Type}
    (r : PartialRollout S A V G E F) (n : ℕ) (mg wg lam : ℚ)
    (hn : 1 ≤ n)
    (hst : r.states.length = n) (hac : r.actions.length = n)
    (hrw : r.rewards.length = n) (hss : r.ss.length = n)
    (hgs : r.gs.length = n) :
    (process_rollout r mg wg lam).obs.length = n
    ∧ (process_rollout r mg wg lam).a.length = n
    ∧ (process_rollout r mg wg lam).manager_returns.length = n
    ∧ (process_rollout r mg wg lam).worker_returns.length = n
    ∧ (process_rollout r mg wg lam).s.length = n
    ∧ (process_rollout r mg wg lam).g.length = n := by
  refine ⟨hst, hac, ?_, ?_, hss, hgs⟩ <;>
    simp [process_rollout, List.length_dropLast, discount_length, hrw]

theorem process_rollout_batch_shape_witness :
    (1 ≤ 2 ∧ sampleRollout.states.length = 2 ∧ sampleRollout.rewards.length = 2)
    ∧ (process_rollout sampleRollout (1/2) (1/3) 1).manager_returns.length = 2 :=
  ⟨⟨by decide, by decide, by decide⟩,
   (process_rollout_batch_shape sampleRollout 2 (1/2) (1/3) 1 (by decide)
      (by decide) (by decide) (by decide) (by decide) (by decide)).2.2.1⟩

/-- C9: `add` always overwrites the fragment's terminal flag with the
transition's terminal value, so after any non-empty sequence of adds the flag
equals the most recently added transition's terminal value (in particular a
non-terminal add resets a previously-true flag). -/
theorem add_overwrites_terminal {S A V G E F : Type} :
    (∀ (r : PartialRollout S A V G E F) (st : S) (ac : A) (rw : ℚ) (v : V)
        (g : G) (s : E) (t : Bool) (f : F),
      (PartialRollout.add r st ac rw v g s t f).terminal = t)
    ∧ ∀ (r : PartialRollout S A V G E F) (ts : List (Step S A V G E F))
        (last : Step S A V G E F),
      ((ts ++ [last]).foldl addStep r).terminal = last.terminal := by
  refine ⟨fun _ _ _ _ _ _ _ _ _ => rfl, fun r ts last => ?_⟩
  rw [List.foldl_append]
  rfl

/-- C10: the produced `Batch` is independent of the rollout's `values`
sequence and of the `lambda_` parameter: changing either never changes the
output. -/
theorem process_rollout_ignores_values_and_lambda {S A V G E F : Type}
    (r : PartialRollout S A V G E F) (v1 v2 : List V) (mg wg l1 l2 : ℚ) :
    process_rollout { r with values := v1 } mg wg l1
      = process_rollout { r with values := v2 } mg wg l2 := rfl

/-- The collection loop never touches the bootstrap fields. -/
theorem collectLoop_bootstrap {S A V G E F : Type} (steps : ℕ → Step S A V G E F)
    (limit : ℕ) (m : ℕ) :
    ∀ (i len : ℕ) (r : PartialRollout S A V G E F),
      (collectLoop steps limit m i r len).1.manager_r = r.manager_r
      ∧ (collectLoop steps limit m i r len).1.worker_r = r.worker_r := by
  induction m with
  | zero => intro i len r; exact ⟨rfl, rfl⟩
  | succ k ih =>
    intro i len r
    simp only [collectLoop]
    split
    · exact ⟨rfl, rfl⟩
    · exact ih (i + 1) (len + 1) (addStep r (steps i))

/-- If the loop starts from a non-terminal rollout and ends with the terminal
flag set, then it broke out with `terminal_end = True`. -/
theorem collectLoop_terminal_end {S A V G E F : Type} (steps : ℕ → Step S A V G E F)
    (limit : ℕ) (m : ℕ) :
    ∀ (i len : ℕ) (r : PartialRollout S A V G E F), r.terminal = false →
      (collectLoop steps limit m i r len).1.terminal = true →
      (collectLoop steps limit m i r len).2.2 = true := by
  induction m with
  | zero =>
    intro i len r hr hterm
    exact absurd hterm (by simp [collectLoop, hr])
  | succ k ih =>
    intro i len r hr hterm
    simp only [collectLoop] at hterm ⊢
    by_cases hcond : (steps i).terminal = true ∨ limit ≤ len + 1
    · rw [if_pos hcond]
    · rw [if_neg hcond] at hterm ⊢
      have hts : (steps i).terminal = false := by
        revert hcond
        cases (steps i).terminal <;> simp
      exact ih (i + 1) (len + 1) (addStep r (steps i)) hts hterm

/-- A fragment that `env_runner` yields with `terminal = True` carries the
bootstrap values left by `PartialRollout.__init__`, namely `0.0`: the
`if not terminal_end` guard (line 171) skips the `policy.value` assignment. -/
theorem env_runner_terminal_no_bootstrap {S A V G E F : Type}
    (steps : ℕ → Step S A V G E F) (limit : ℕ) (vm vw : ℚ) (N len0 : ℕ)
    (hterm : (env_runner_window steps limit vm vw N len0).terminal = true) :
    (env_runner_window steps limit vm vw N len0).manager_r = 0
    ∧ (env_runner_window steps limit vm vw N len0).worker_r = 0 := by
  simp only [env_runner_window] at hterm ⊢
  by_cases hb : (collectLoop steps limit N 0 PartialRollout.init len0).2.2 = true
  · rw [if_pos hb]
    exact collectLoop_bootstrap steps limit N 0 len0 PartialRollout.init
  · rw [if_neg hb] at hterm
    exact absurd (collectLoop_terminal_end steps limit N 0 len0
      PartialRollout.init rfl hterm) hb

/-- C2: every fragment yielded by `env_runner` with `terminal = true` and at
least one step produces return streams whose last element equals the last
reward exactly — the bootstrap values are 0 and contribute nothing. -/
theorem env_runner_terminal_last_return {S A V G E F : Type}
    (steps : ℕ → Step S A V G E F) (limit : ℕ) (vm vw : ℚ) (N len0 : ℕ)
    (mg wg lam : ℚ)
    (hterm : (env_runner_window steps limit vm vw N len0).terminal = true)
    (hn : 1 ≤ (env_runner_window steps limit vm vw N len0).rewards.length) :
    (process_rollout (env_runner_window steps limit vm vw N len0) mg wg lam).manager_returns.getD
        ((env_runner_window steps limit vm vw N len0).rewards.length - 1) 0
      = (env_runner_window steps limit vm vw N len0).rewards.getD
          ((env_runner_window steps limit vm vw N len0).rewards.length - 1) 0
    ∧ (process_rollout (env_runner_window steps limit vm vw N len0) mg wg lam).worker_returns.getD
        ((env_runner_window steps limit vm vw N len0).rewards.length - 1) 0
      = (env_runner_window steps limit vm vw N len0).rewards.getD
          ((env_runner_window steps limit vm vw N len0).rewards.length - 1) 0 := by
  obtain ⟨hm0, hw0⟩ :=
    env_runner_terminal_no_bootstrap steps limit vm vw N len0 hterm
  constructor
  · show (discount mg ((env_runner_window steps limit vm vw N len0).rewards
        ++ [(env_runner_window steps limit vm vw N len0).manager_r])).dropLast.getD
        ((env_runner_window steps limit vm vw N len0).rewards.length - 1) 0 = _
    rw [(dropLast_discount_spec mg
      (env_runner_window steps limit vm vw N len0).manager_r
      (env_runner_window steps limit vm vw N len0).rewards hn).1, hm0,
      mul_zero, add_zero]
  · show (discount wg ((env_runner_window steps limit vm vw N len0).rewards
        ++ [(env_runner_window steps limit vm vw N len0).worker_r])).dropLast.getD
        ((env_runner_window steps limit vm vw N len0).rewards.length - 1) 0 = _
    rw [(dropLast_discount_spec wg
      (env_runner_window steps limit vm vw N len0).worker_r
      (env_runner_window steps limit vm vw N len0).rewards hn).1, hw0,
      mul_zero, add_zero]

theorem env_runner_terminal_last_return_witness :
    ((env_runner_window sampleSteps 10 7 7 1 0).terminal = true
      ∧ 1 ≤ (env_runner_window sampleSteps 10 7 7 1 0).rewards.length)
    ∧ (process_rollout (env_runner_window sampleSteps 10 7 7 1 0)
          (1/2) (1/3) 1).manager_returns.getD
        ((env_runner_window sampleSteps 10 7 7 1 0).rewards.length - 1) 0
      = (env_runner_window sampleSteps 10 7 7 1 0).rewards.getD
          ((env_runner_window sampleSteps 10 7 7 1 0).rewards.length - 1) 0 :=
  ⟨⟨by decide, by decide⟩,
   (env_runner_terminal_last_return sampleSteps 10 7 7 1 0 (1/2) (1/3) 1
      (by decide) (by decide)).1⟩

/-- The drain loop removes some number `n` of fragments from the front of the
queue, left-folds them into the accumulator with the merge, keeps merging only
while the accumulated fragment is non-terminal, and stops exactly when it
becomes terminal or the queue runs out. -/
theorem drainLoop_spec {S A V G E F : Type} :
    ∀ (rest : List (PartialRollout S A V G E F)) (f : PartialRollout S A V G E F),
      ∃ n, n ≤ rest.length
        ∧ drainLoop rest f
            = ((rest.take n).foldl PartialRollout.extendP f, rest.drop n)
        ∧ (∀ i, i < n → ((rest.take i).foldl PartialRollout.extendP f).terminal = false)
        ∧ (((rest.take n).foldl PartialRollout.extendP f).terminal = true
            ∨ n = rest.length) := by
  intro rest
  induction rest with
  | nil =>
    intro f
    exact ⟨0, Nat.le_refl 0, rfl, fun i hi => absurd hi (Nat.not_lt_zero i),
      Or.inr rfl⟩
  | cons g rest2 ih =>
    intro f
    by_cases hf : f.terminal = true
    · refine ⟨0, Nat.zero_le _, ?_, fun i hi => absurd hi (Nat.not_lt_zero i),
        Or.inl hf⟩
      simp [drainLoop, hf]
    · have hf' : f.terminal = false := by
        revert hf; cases f.terminal <;> simp
      obtain ⟨n, hle, heq, hall, hstop⟩ := ih (f.extendP g)
      refine ⟨n + 1, Nat.succ_le_succ hle, ?_, ?_, ?_⟩
      · simpa [drainLoop, hf'] using heq
      · intro i hi
        cases i with
        | zero => simpa using hf'
        | succ j => simpa using hall j (Nat.lt_of_succ_lt_succ hi)
      · rcases hstop with h | h
        · exact Or.inl (by simpa using h)
        · exact Or.inr (by simpa using h)

/-- C7: `pull_batch_from_queue` fails fatally (the blocking `get` times out
and `queue.Empty` propagates, no retry) when nothing arrives; otherwise it
removes the first fragment, then merges in order some number `n` of
immediately available fragments, merging only while the accumulated rollout is
non-terminal and stopping exactly when it becomes terminal or the queue is
momentarily empty; the returned rollout is the in-order merge of the removed
fragments and the rest of the queue is untouched. -/
theorem pull_batch_from_queue_spec {S A V G E F : Type}
    (f : PartialRollout S A V G E F) (rest : List (PartialRollout S A V G E F)) :
    pull_batch_from_queue ([] : List (PartialRollout S A V G E F))
        = Except.error "queue.get timed out"
    ∧ ∃ n, n ≤ rest.length
        ∧ pull_batch_from_queue (f :: rest)
            = Except.ok ((rest.take n).foldl PartialRollout.extendP f, rest.drop n)
        ∧ (∀ i, i < n → ((rest.take i).foldl PartialRollout.extendP f).terminal = false)
        ∧ (((rest.take n).foldl PartialRollout.extendP f).terminal = true
            ∨ n = rest.length) := by
  obtain ⟨n, hle, heq, hall, hstop⟩ := drainLoop_spec rest f
  exact ⟨rfl, n, hle, by simp [pull_batch_from_queue, heq], hall, hstop⟩

theorem pull_batch_from_queue_spec_witness :
    pull_batch_from_queue ([] : List (PartialRollout ℕ ℕ ℕ ℕ ℕ ℕ))
        = Except.error "queue.get timed out"
    ∧ ∃ n, n ≤ [terminalRollout, sampleRollout2].length
        ∧ pull_batch_from_queue (sampleRollout :: [terminalRollout, sampleRollout2])
            = Except.ok
                (([terminalRollout, sampleRollout2].take n).foldl
                  PartialRollout.extendP sampleRollout,
                 [terminalRollout, sampleRollout2].drop n)
        ∧ (∀ i, i < n →
            (([terminalRollout, sampleRollout2].take i).foldl
              PartialRollout.extendP sampleRollout).terminal = false)
        ∧ ((([terminalRollout, sampleRollout2].take n).foldl
              PartialRollout.extendP sampleRollout).terminal = true
            ∨ n = [terminalRollout, sampleRollout2].length) :=
  pull_batch_from_queue_spec sampleRollout [terminalRollout, sampleRollout2]

/-- C8: the runner's handoff queue is created with capacity 5 and pushed with
a 600-second timeout; a `put` on a full bounded queue blocks (no room is
made), a successful `put` never grows the queue beyond its capacity, and once
the consumer `get`s a fragment from a full queue the blocked `put` can
complete — the queue never holds more than its capacity. -/
theorem runner_queue_backpressure (α : Type) :
    (runnerQueue α).capacity = 5
    ∧ runnerPutTimeout = 600
    ∧ (∀ (q : BoundedQueue α) (x : α),
        q.capacity ≤ q.items.length → q.put x = none)
    ∧ (∀ (q q2 : BoundedQueue α) (x : α),
        q.put x = some q2 → q2.items.length ≤ q.capacity)
    ∧ (∀ (q rest : BoundedQueue α) (z x : α),
        q.items.length = q.capacity → q.get = some (z, rest) →
          ∃ q3, rest.put x = some q3 ∧ q3.items.length ≤ q.capacity) := by
  refine ⟨rfl, rfl, ?_, ?_, ?_⟩
  · intro q x h
    simp only [BoundedQueue.put]
    rw [if_neg (by omega)]
  · intro q q2 x h
    simp only [BoundedQueue.put] at h
    by_cases hlt : q.items.length < q.capacity
    · rw [if_pos hlt] at h
      cases h
      simp only [List.length_append, List.length_cons, List.length_nil]
      omega
    · rw [if_neg hlt] at h
      exact absurd h (by simp)
  · intro q rest z x hfull hget
    simp only [BoundedQueue.get] at hget
    cases hq : q.items with
    | nil => rw [hq] at hget; exact absurd hget (by simp)
    | cons a as =>
      rw [hq] at hget
      have hrest : rest = { q with items := as } := by
        cases hget; rfl
      have hlen : as.length + 1 = q.capacity := by
        rw [← hfull, hq]; simp
      refine ⟨{ capacity := q.capacity, items := as ++ [x] }, ?_, ?_⟩
      · rw [hrest]
        simp only [BoundedQueue.put]
        have hcond : ({ q with items := as } : BoundedQueue α).items.length
            < ({ q with items := as } : BoundedQueue α).capacity := by
          show as.length < q.capacity
          omega
        rw [if_pos hcond]
      · simp only [List.length_append, List.length_cons, List.length_nil]
        omega

theorem runner_queue_backpressure_witness :
    (runnerQueue ℕ).capacity = 5
    ∧ ((⟨1, [0]⟩ : BoundedQueue ℕ).put 7 = none)
    ∧ (∃ q3, (⟨1, []⟩ : BoundedQueue ℕ).put 7 = some q3
        ∧ q3.items.length ≤ (⟨1, [0]⟩ : BoundedQueue ℕ).capacity) :=
  ⟨(runner_queue_backpressure ℕ).1,
   (runner_queue_backpressure ℕ).2.2.1 ⟨1, [0]⟩ 7 (by decide),
   (runner_queue_backpressure ℕ).2.2.2.2 ⟨1, [0]⟩ ⟨1, []⟩ 0 7 (by decide)
     (by decide)⟩

end FeudalOpt
